import Mathlib

/-!
Shallow embedding of the kilo-style terminal text editor (src/kilo.c).

Bytes are modelled as natural numbers (tab = 9, newline = 10, carriage
return = 13, space = 32, escape = 27).  A text row (C struct erow) keeps
the raw bytes (chars) and the cached rendered bytes (render); sizes are
implicit as list lengths.  The global struct editorConfig E becomes the
EditorState structure; C int fields that stay non-negative in every
reachable state are modelled as Nat, while positional arguments that the
C code range-checks against negative values are modelled as Int.
-/

namespace Kilo

/-- KILO_TAB_STOP from src/kilo.c line 21. -/
def KILO_TAB_STOP : Nat := 8

/-- KILO_QUIT_TIMES from src/kilo.c line 22. -/
def KILO_QUIT_TIMES : Nat := 3

/-- CTRL_KEY macro: k AND 0x1f. -/
def CTRL_KEY (k : Nat) : Nat := k % 32

/-- enum editorKey values (src/kilo.c lines 29-40). -/
def BACKSPACE : Nat := 127

def ARROW_LEFT : Nat := 1000

def ARROW_RIGHT : Nat := 1001

def ARROW_UP : Nat := 1002

def ARROW_DOWN : Nat := 1003

def DEL_KEY : Nat := 1004

def HOME_KEY : Nat := 1005

def END_KEY : Nat := 1006

def PAGE_UP : Nat := 1007

def PAGE_DOWN : Nat := 1008

/-- struct erow: raw bytes (chars) plus cached render bytes. -/
structure Erow where
  chars : List Nat
  render : List Nat
deriving DecidableEq, Repr

/-- An empty row, used as the out-of-bounds default for row lookups. -/
def emptyErow : Erow := { chars := [], render := [] }

/-- The render loop body of editorUpdateRow (src/kilo.c lines 298-309):
walking the raw bytes with running render index idx, a tab byte emits one
space and then spaces until idx is a multiple of KILO_TAB_STOP; any other
byte is copied unchanged. -/
def renderFrom (idx : Nat) : List Nat → List Nat
  | [] => []
  | c :: cs =>
    if c = 9 then
      List.replicate (KILO_TAB_STOP - idx % KILO_TAB_STOP) 32 ++
        renderFrom (idx + (KILO_TAB_STOP - idx % KILO_TAB_STOP)) cs
    else
      c :: renderFrom (idx + 1) cs

/-- The render of a row recomputed from its raw bytes (editorUpdateRow). -/
def renderOf (chars : List Nat) : List Nat := renderFrom 0 chars

/-- editorUpdateRow (src/kilo.c lines 285-312): recompute the cached
render from the raw bytes. -/
def editorUpdateRow (r : Erow) : Erow := { r with render := renderOf r.chars }

/-- One step of the editorRowCxtoRx loop (src/kilo.c lines 272-279): a tab
advances rx by (KILO_TAB_STOP - 1) - rx mod KILO_TAB_STOP and then by one
more; any other byte advances rx by one. -/
def rxStep (rx c : Nat) : Nat :=
  if c = 9 then rx + ((KILO_TAB_STOP - 1) - rx % KILO_TAB_STOP) + 1 else rx + 1

/-- editorRowCxtoRx (src/kilo.c lines 270-281): translate a logical column
cx into a visual (render) column by walking the bytes before cx. -/
def editorRowCxtoRx (chars : List Nat) (cx : Nat) : Nat :=
  (chars.take cx).foldl rxStep 0

/-- struct editorConfig (src/kilo.c lines 56-70) restricted to the fields
the document/cursor/viewport logic reads and writes.  dirty counts
mutations as in C (it is incremented, not just set). -/
structure EditorState where
  cx : Nat
  cy : Nat
  rx : Nat
  rowoff : Nat
  coloff : Nat
  screenrows : Nat
  screencols : Nat
  rows : List Erow
  dirty : Nat
deriving DecidableEq, Repr

/-- editorInsertRow (src/kilo.c lines 315-336): no-op when the position is
outside 0..numrows, otherwise insert a freshly rendered row there and
bump the dirty counter. -/
def editorInsertRow (E : EditorState) (pos : Int) (s : List Nat) : EditorState :=
  if pos < 0 ∨ (E.rows.length : Int) < pos then E
  else
    { E with
      rows := E.rows.take pos.toNat ++ editorUpdateRow { chars := s, render := [] } ::
        E.rows.drop pos.toNat
      dirty := E.dirty + 1 }

/-- editorDelRow (src/kilo.c lines 343-352): no-op when the position is
outside 0..numrows-1, otherwise remove that row and bump dirty. -/
def editorDelRow (E : EditorState) (pos : Int) : EditorState :=
  if pos < 0 ∨ (E.rows.length : Int) ≤ pos then E
  else
    { E with
      rows := E.rows.take pos.toNat ++ E.rows.drop (pos.toNat + 1)
      dirty := E.dirty + 1 }

/-- The row transformation of editorRowInsertChar (src/kilo.c lines
356-366): an out-of-range position is clamped to the row size (so the
byte is appended at the end of the line), the byte is inserted, and the
render is recomputed. -/
def rowInsertPos (r : Erow) (pos : Int) : Nat :=
  if pos < 0 ∨ (r.chars.length : Int) < pos then r.chars.length else pos.toNat

def rowInsertChar (r : Erow) (pos : Int) (c : Nat) : Erow :=
  editorUpdateRow { r with
    chars := r.chars.take (rowInsertPos r pos) ++ c :: r.chars.drop (rowInsertPos r pos) }

/-- editorRowInsertChar acting on row index i of the state (the C caller
passes a pointer to E.row[i]); always bumps dirty. -/
def editorRowInsertChar (E : EditorState) (i : Nat) (pos : Int) (c : Nat) : EditorState :=
  { E with
    rows := E.rows.set i (rowInsertChar (E.rows.getD i emptyErow) pos c)
    dirty := E.dirty + 1 }

/-- editorRowAppendString (src/kilo.c lines 368-379) acting on row index i:
append bytes to the row, recompute its render, bump dirty. -/
def editorRowAppendString (E : EditorState) (i : Nat) (s : List Nat) : EditorState :=
  { E with
    rows := E.rows.set i
      (editorUpdateRow { E.rows.getD i emptyErow with
        chars := (E.rows.getD i emptyErow).chars ++ s })
    dirty := E.dirty + 1 }

/-- editorRowDelChar (src/kilo.c lines 381-391) acting on row index i:
no-op when the position is outside 0..size-1, otherwise delete that byte,
recompute the render and bump dirty. -/
def editorRowDelChar (E : EditorState) (i : Nat) (pos : Int) : EditorState :=
  if pos < 0 ∨ ((E.rows.getD i emptyErow).chars.length : Int) ≤ pos then E
  else
    { E with
      rows := E.rows.set i
        (editorUpdateRow { E.rows.getD i emptyErow with
          chars := (E.rows.getD i emptyErow).chars.take pos.toNat ++
            (E.rows.getD i emptyErow).chars.drop (pos.toNat + 1) })
      dirty := E.dirty + 1 }

/-- editorInsertChar (src/kilo.c lines 393-401): append an empty row first
when the cursor sits on the virtual end-of-file row, insert the byte at
the cursor column, advance the cursor column. -/
def editorInsertChar (E : EditorState) (c : Nat) : EditorState :=
  { editorRowInsertChar
      (if E.cy = E.rows.length then editorInsertRow E (E.rows.length : Int) [] else E)
      E.cy (E.cx : Int) c with
    cx := E.cx + 1 }

/-- The truncation step of editorInsertNewline (src/kilo.c lines 412-415):
keep only the first len bytes of row i and recompute its render. -/
def truncateRowAt (E : EditorState) (i len : Nat) : EditorState :=
  { E with
    rows := E.rows.set i
      (editorUpdateRow { E.rows.getD i emptyErow with
        chars := (E.rows.getD i emptyErow).chars.take len }) }

/-- editorInsertNewline (src/kilo.c lines 403-419): at column 0 insert an
empty row above the current one; otherwise move the bytes from the cursor
column on into a new row below and truncate the current row at the cursor
column.  Cursor goes to column 0 of the next row. -/
def editorInsertNewline (E : EditorState) : EditorState :=
  { (if E.cx = 0 then editorInsertRow E (E.cy : Int) []
     else
       truncateRowAt
         (editorInsertRow E ((E.cy : Int) + 1) ((E.rows.getD E.cy emptyErow).chars.drop E.cx))
         E.cy E.cx) with
    cy := E.cy + 1, cx := 0 }

/-- editorDeleteChar (src/kilo.c lines 421-442): no-op on the virtual
end-of-file row and at the very start of the document; with a positive
cursor column delete the byte before the cursor; at column 0 join the
current row onto the previous one, placing the cursor at the previous
row's old end. -/
def editorDeleteChar (E : EditorState) : EditorState :=
  if E.cy = E.rows.length then E
  else if E.cx = 0 ∧ E.cy = 0 then E
  else if 0 < E.cx then
    { editorRowDelChar E E.cy ((E.cx : Int) - 1) with cx := E.cx - 1 }
  else
    { editorDelRow
        (editorRowAppendString E (E.cy - 1) (E.rows.getD E.cy emptyErow).chars)
        (E.cy : Int) with
      cx := (E.rows.getD (E.cy - 1) emptyErow).chars.length
      cy := E.cy - 1 }

/-- One read attempt from stdin after the initial byte: the head of the
stream, where none models a timed-out read (read returned 0) and an empty
stream also models timeout. -/
def rdByte : List (Option Nat) → Option Nat × List (Option Nat)
  | [] => (none, [])
  | x :: xs => (x, xs)

/-- editorReadKey (src/kilo.c lines 141-213): decode one key event from
the first byte c and the stream of subsequent read results.  Escape
sequences ESC [ digit ~, ESC [ A B C D H F and ESC O H F map to the
special keys; anything else after an escape, including a timeout, decodes
to the escape byte 27; a non-escape first byte is returned verbatim. -/
def editorReadKey (c : Nat) (input : List (Option Nat)) : Nat :=
  if c = 27 then
    match rdByte input with
    | (none, _) => 27
    | (some s0, input1) =>
      match rdByte input1 with
      | (none, _) => 27
      | (some s1, input2) =>
        if s0 = 91 then
          if 48 ≤ s1 ∧ s1 ≤ 57 then
            match rdByte input2 with
            | (none, _) => 27
            | (some s2, _) =>
              if s2 = 126 then
                if s1 = 49 then HOME_KEY
                else if s1 = 51 then DEL_KEY
                else if s1 = 52 then END_KEY
                else if s1 = 53 then PAGE_UP
                else if s1 = 54 then PAGE_DOWN
                else if s1 = 55 then HOME_KEY
                else if s1 = 56 then END_KEY
                else 27
              else 27
          else
            if s1 = 65 then ARROW_UP
            else if s1 = 66 then ARROW_DOWN
            else if s1 = 67 then ARROW_RIGHT
            else if s1 = 68 then ARROW_LEFT
            else if s1 = 72 then HOME_KEY
            else if s1 = 70 then END_KEY
            else 27
        else if s0 = 79 then
          if s1 = 72 then HOME_KEY
          else if s1 = 70 then END_KEY
          else 27
        else 27
  else c

/-- The visual column editorScroll computes (src/kilo.c lines 570-573):
zero on the virtual end-of-file row, otherwise the translation of the
cursor column. -/
def rxOf (E : EditorState) : Nat :=
  if E.cy < E.rows.length then editorRowCxtoRx (E.rows.getD E.cy emptyErow).chars E.cx else 0

/-- The two sequential vertical clamps of editorScroll (src/kilo.c lines
575-580): pull the offset up to the cursor row, then push it down so the
cursor row is on the last visible row.  The second test reads the offset
already updated by the first, as in the C code. -/
def scrollClampUp (cur off : Nat) : Nat :=
  if cur < off then cur else off

def scrollClamp (cur extent off : Nat) : Nat :=
  if scrollClampUp cur off + extent ≤ cur then cur - extent + 1
  else scrollClampUp cur off

/-- editorScroll (src/kilo.c lines 569-587): recompute rx, then clamp
rowoff with the cursor row and coloff with the visual column.  The
horizontal clamps (lines 581-586) are the same two tests with rx,
coloff and screencols. -/
def editorScroll (E : EditorState) : EditorState :=
  { E with
    rx := rxOf E
    rowoff := scrollClamp E.cy E.screenrows E.rowoff
    coloff := scrollClamp (rxOf E) E.screencols E.coloff }

/-- The arrow-key switch of editorMoveCursor (src/kilo.c lines 758-792):
left at column 0 goes to the end of the previous row, right at the end of
a row goes to column 0 of the next row; the right-arrow cases only apply
on a real row (the row pointer is NULL past the end of the document). -/
def moveCursorStep (E : EditorState) (key : Nat) : EditorState :=
  if key = ARROW_LEFT then
    if E.cx ≠ 0 then { E with cx := E.cx - 1 }
    else if 0 < E.cy then
      { E with cy := E.cy - 1, cx := (E.rows.getD (E.cy - 1) emptyErow).chars.length }
    else E
  else if key = ARROW_RIGHT then
    if E.rows.length ≤ E.cy then E
    else if E.cx < (E.rows.getD E.cy emptyErow).chars.length then { E with cx := E.cx + 1 }
    else if E.cx = (E.rows.getD E.cy emptyErow).chars.length then
      { E with cy := E.cy + 1, cx := 0 }
    else E
  else if key = ARROW_UP then
    if E.cy ≠ 0 then { E with cy := E.cy - 1 } else E
  else if key = ARROW_DOWN then
    if E.cx < E.rows.length then { E with cy := E.cy + 1 } else E
  else E

/-- The row length the cursor column is snapped to after a move
(src/kilo.c lines 796-800): zero past the end of the document. -/
def snapCx (E : EditorState) : Nat :=
  if E.rows.length ≤ E.cy then 0 else (E.rows.getD E.cy emptyErow).chars.length

/-- editorMoveCursor (src/kilo.c lines 754-801): arrow-key cursor motion
followed by the snap of the cursor column to the new row's length. -/
def editorMoveCursor (E : EditorState) (key : Nat) : EditorState :=
  if snapCx (moveCursorStep E key) < (moveCursorStep E key).cx then
    { moveCursorStep E key with cx := snapCx (moveCursorStep E key) }
  else moveCursorStep E key

/-- The while (times--) loop of the PAGE_UP / PAGE_DOWN branch: iterate
editorMoveCursor with a fixed key. -/
def iterMove (E : EditorState) (key : Nat) : Nat → EditorState
  | 0 => E
  | n + 1 => iterMove (editorMoveCursor E key) key n

/-- What one keypress does to the process: continue with a new editor
state, hand the state to the save path (file I/O, outside this model), or
terminate the process. -/
inductive KeyOutcome where
  | next (E : EditorState)
  | save (E : EditorState)
  | exited
deriving DecidableEq, Repr

/-- editorProcessKeypress (src/kilo.c lines 804-886) for a decoded key c,
with the static quit_times counter passed and returned explicitly.  Every
branch except the early-return warning branch of Ctrl-Q resets the
counter to KILO_QUIT_TIMES at the bottom of the function. -/
def editorProcessKeypress (E : EditorState) (quit_times : Nat) (c : Nat) :
    KeyOutcome × Nat :=
  if c = 13 then (.next (editorInsertNewline E), KILO_QUIT_TIMES)
  else if c = CTRL_KEY 113 then
    if E.dirty ≠ 0 ∧ 0 < quit_times then (.next E, quit_times - 1)
    else (.exited, quit_times)
  else if c = CTRL_KEY 115 then (.save E, KILO_QUIT_TIMES)
  else if c = HOME_KEY then (.next { E with cx := 0 }, KILO_QUIT_TIMES)
  else if c = END_KEY then
    (.next (if E.cy < E.rows.length then
      { E with cx := (E.rows.getD E.cy emptyErow).chars.length } else E), KILO_QUIT_TIMES)
  else if c = BACKSPACE ∨ c = CTRL_KEY 104 ∨ c = DEL_KEY then
    (.next (editorDeleteChar (if c = DEL_KEY then editorMoveCursor E ARROW_RIGHT else E)),
      KILO_QUIT_TIMES)
  else if c = PAGE_UP then
    (.next (iterMove { E with cy := E.rowoff } ARROW_UP E.screenrows), KILO_QUIT_TIMES)
  else if c = PAGE_DOWN then
    let cy1 := E.rowoff + E.screenrows - 1
    let cy2 := if E.rows.length < cy1 then E.rows.length else cy1
    (.next (iterMove { E with cy := cy2 } ARROW_DOWN E.screenrows), KILO_QUIT_TIMES)
  else if c = ARROW_UP ∨ c = ARROW_DOWN ∨ c = ARROW_LEFT ∨ c = ARROW_RIGHT then
    (.next (editorMoveCursor E c), KILO_QUIT_TIMES)
  else if c = CTRL_KEY 108 ∨ c = 27 then (.next E, KILO_QUIT_TIMES)
  else (.next (editorInsertChar E c), KILO_QUIT_TIMES)

/-- Pressing Ctrl-Q n times in a row, threading state and quit counter;
once the process has exited further presses change nothing. -/
def quitPresses (E : EditorState) (quit_times : Nat) : Nat → KeyOutcome × Nat
  | 0 => (.next E, quit_times)
  | n + 1 =>
    match quitPresses E quit_times n with
    | (.next E', qt') => editorProcessKeypress E' qt' (CTRL_KEY 113)
    | other => other

/-- editorRowsToString (src/kilo.c lines 446-467): each row's raw bytes
followed by a newline byte, concatenated over all rows. -/
def editorRowsToString (E : EditorState) : List Nat :=
  E.rows.foldr (fun r acc => r.chars ++ 10 :: acc) []

/-- getline chunking of a byte stream: maximal chunks ending in a newline
byte, with a final chunk for trailing bytes with no newline; an empty
stream yields no chunks.  The first argument is the reversed bytes
accumulated for the current chunk. -/
def splitChunks (acc : List Nat) : List Nat → List (List Nat)
  | [] => if acc = [] then [] else [acc.reverse]
  | b :: bs =>
    if b = 10 then (acc.reverse ++ [10]) :: splitChunks [] bs
    else splitChunks (b :: acc) bs

/-- The trailing-newline strip of editorOpen (src/kilo.c lines 485-487):
drop newline and carriage-return bytes from the end of the chunk. -/
def stripNL (l : List Nat) : List Nat :=
  (l.reverse.dropWhile (fun b => b = 10 ∨ b = 13)).reverse

/-- editorOpen (src/kilo.c lines 470-493) on a byte stream: split into
getline chunks, strip trailing newline bytes, append each as a row, and
reset the dirty counter. -/
def editorOpen (E : EditorState) (bytes : List Nat) : EditorState :=
  let E' := ((splitChunks [] bytes).map stripNL).foldl
    (fun st l => editorInsertRow st (st.rows.length : Int) l) E
  { E' with dirty := 0 }

/-- initEditor (src/kilo.c lines 889-911) with the given screen size:
cursor, offsets and document all empty. -/
def initEditor (srows scols : Nat) : EditorState :=
  { cx := 0, cy := 0, rx := 0, rowoff := 0, coloff := 0,
    screenrows := srows, screencols := scols, rows := [], dirty := 0 }

/-- The edit operations claim C1 ranges over. -/
inductive EditOp where
  | insertChar (c : Nat)
  | deleteCharBackward
  | insertNewline
deriving DecidableEq, Repr

/-- Apply one edit operation. -/
def applyOp (E : EditorState) : EditOp → EditorState
  | .insertChar c => editorInsertChar E c
  | .deleteCharBackward => editorDeleteChar E
  | .insertNewline => editorInsertNewline E

/-- Apply a sequence of edit operations left to right. -/
def applyOps (E : EditorState) (ops : List EditOp) : EditorState :=
  ops.foldl applyOp E

/-- Cache consistency: every row's cached render equals the render
recomputed from its raw bytes. -/
def RenderConsistent (E : EditorState) : Prop :=
  ∀ r ∈ E.rows, r.render = renderOf r.chars

instance (E : EditorState) : Decidable (RenderConsistent E) := by
  unfold RenderConsistent
  infer_instance

/-- The byte stream of a file whose every line ends in a single trailing
newline: the lines joined with a newline after each, the last included. -/
def lineBytes (ls : List (List Nat)) : List Nat :=
  (ls.map (fun l => l ++ [10])).flatten

/-- A two-line sample document, the file with bytes ab newline cd newline. -/
def sampleDoc : EditorState := editorOpen (initEditor 10 10) [97, 98, 10, 99, 100, 10]

/-- A dirty one-byte document used to exercise the quit counter. -/
def dirtyDoc : EditorState := applyOps (initEditor 10 10) [.insertChar 97]

/-- A one-row document with the single byte 97, for out-of-range edits. -/
def oneCharDoc : EditorState :=
  { initEditor 10 10 with rows := [{ chars := [97], render := [97] }] }

lemma le_foldl_rxStep (l : List Nat) (a : Nat) : a ≤ l.foldl rxStep a := by
  induction l generalizing a with
  | nil => exact Nat.le_refl a
  | cons c cs ih =>
    refine Nat.le_trans ?_ (ih (rxStep a c))
    unfold rxStep
    split <;> omega

/-- Claim C5: editorRowCxtoRx walks the bytes before the logical column,
advancing by (KILO_TAB_STOP - 1) - acc mod KILO_TAB_STOP plus one more
for a tab byte and by one otherwise; a single tab renders as eight spaces
and maps logical column 1 to visual column 8; the map is monotone. -/
theorem editorRowCxtoRx_spec (chars : List Nat) :
    (∀ cx, cx < chars.length →
      editorRowCxtoRx chars (cx + 1) = rxStep (editorRowCxtoRx chars cx) (chars.getD cx 0)) ∧
    renderOf [9] = List.replicate KILO_TAB_STOP 32 ∧
    editorRowCxtoRx [9] 1 = KILO_TAB_STOP ∧
    (∀ cx cx', cx ≤ cx' → editorRowCxtoRx chars cx ≤ editorRowCxtoRx chars cx') := by
  refine ⟨?_, by decide, by decide, ?_⟩
  · intro cx h
    have h1 : chars[cx]? = some chars[cx] := List.getElem?_eq_getElem h
    unfold editorRowCxtoRx
    rw [List.take_succ, h1, List.foldl_append]
    simp [List.getD_eq_getElem?_getD, h1]
  · intro cx cx' h
    have hsplit : List.take cx' chars =
        List.take cx chars ++ List.take (cx' - cx) (List.drop cx chars) := by
      rw [← List.take_add]
      congr 1
      omega
    unfold editorRowCxtoRx
    rw [hsplit, List.foldl_append]
    exact le_foldl_rxStep _ _

/-- Claim C5 witness at a concrete line: a tab byte then a letter. -/
theorem editorRowCxtoRx_spec_witness :
    editorRowCxtoRx [9, 97] 1 = rxStep (editorRowCxtoRx [9, 97] 0) 9 ∧
    editorRowCxtoRx [9, 97] 1 ≤ editorRowCxtoRx [9, 97] 2 :=
  ⟨(editorRowCxtoRx_spec [9, 97]).1 0 (by decide),
   (editorRowCxtoRx_spec [9, 97]).2.2.2 1 2 (by decide)⟩

/-- Claim C9: the ARROW_DOWN branch of editorMoveCursor advances the
cursor row exactly when the cursor column is below the row count - the
comparison really is on the column axis, not the row axis. -/
theorem moveDown_compares_cx_to_numrows (E : EditorState) :
    (editorMoveCursor E ARROW_DOWN).cy = E.cy + 1 ↔ E.cx < E.rows.length := by
  have hstep : moveCursorStep E ARROW_DOWN =
      if E.cx < E.rows.length then { E with cy := E.cy + 1 } else E := by
    unfold moveCursorStep
    rw [if_neg (by decide), if_neg (by decide), if_neg (by decide), if_pos rfl]
  unfold editorMoveCursor
  rw [hstep]
  split_ifs <;> simp_all

/-- Claim C4: the key decoder maps ESC [ digit ~ to Home (1, 7), Delete
(3), End (4, 8), PageUp (5), PageDown (6); ESC [ A B C D to the arrows;
ESC [ H, ESC O H to Home and ESC [ F, ESC O F to End; returns any
non-escape byte verbatim; and decodes every other or incomplete escape
sequence, timeouts included, to the literal escape byte 27. -/
theorem editorReadKey_spec :
    (∀ c input, c ≠ 27 → editorReadKey c input = c) ∧
    (∀ t, editorReadKey 27 (some 91 :: some 49 :: some 126 :: t) = HOME_KEY) ∧
    (∀ t, editorReadKey 27 (some 91 :: some 51 :: some 126 :: t) = DEL_KEY) ∧
    (∀ t, editorReadKey 27 (some 91 :: some 52 :: some 126 :: t) = END_KEY) ∧
    (∀ t, editorReadKey 27 (some 91 :: some 53 :: some 126 :: t) = PAGE_UP) ∧
    (∀ t, editorReadKey 27 (some 91 :: some 54 :: some 126 :: t) = PAGE_DOWN) ∧
    (∀ t, editorReadKey 27 (some 91 :: some 55 :: some 126 :: t) = HOME_KEY) ∧
    (∀ t, editorReadKey 27 (some 91 :: some 56 :: some 126 :: t) = END_KEY) ∧
    (∀ t, editorReadKey 27 (some 91 :: some 65 :: t) = ARROW_UP) ∧
    (∀ t, editorReadKey 27 (some 91 :: some 66 :: t) = ARROW_DOWN) ∧
    (∀ t, editorReadKey 27 (some 91 :: some 67 :: t) = ARROW_RIGHT) ∧
    (∀ t, editorReadKey 27 (some 91 :: some 68 :: t) = ARROW_LEFT) ∧
    (∀ t, editorReadKey 27 (some 91 :: some 72 :: t) = HOME_KEY) ∧
    (∀ t, editorReadKey 27 (some 91 :: some 70 :: t) = END_KEY) ∧
    (∀ t, editorReadKey 27 (some 79 :: some 72 :: t) = HOME_KEY) ∧
    (∀ t, editorReadKey 27 (some 79 :: some 70 :: t) = END_KEY) ∧
    (editorReadKey 27 [] = 27) ∧
    (∀ t, editorReadKey 27 (none :: t) = 27) ∧
    (∀ b, editorReadKey 27 [some b] = 27) ∧
    (∀ b t, editorReadKey 27 (some b :: none :: t) = 27) ∧
    (∀ d, 48 ≤ d → d ≤ 57 → editorReadKey 27 [some 91, some d] = 27) ∧
    (∀ d t, 48 ≤ d → d ≤ 57 → editorReadKey 27 (some 91 :: some d :: none :: t) = 27) ∧
    (∀ s0 s1 t, s0 ≠ 91 → s0 ≠ 79 → editorReadKey 27 (some s0 :: some s1 :: t) = 27) ∧
    (∀ s1 t, s1 ≠ 72 → s1 ≠ 70 → editorReadKey 27 (some 79 :: some s1 :: t) = 27) ∧
    (∀ s1 t, ¬(48 ≤ s1 ∧ s1 ≤ 57) → s1 ≠ 65 → s1 ≠ 66 → s1 ≠ 67 → s1 ≠ 68 →
      s1 ≠ 72 → s1 ≠ 70 → editorReadKey 27 (some 91 :: some s1 :: t) = 27) ∧
    (∀ s1 s2 t, 48 ≤ s1 → s1 ≤ 57 → s2 ≠ 126 →
      editorReadKey 27 (some 91 :: some s1 :: some s2 :: t) = 27) ∧
    (∀ s1 t, s1 = 48 ∨ s1 = 50 ∨ s1 = 57 →
      editorReadKey 27 (some 91 :: some s1 :: some 126 :: t) = 27) := by
  refine ⟨fun c input h => by simp [editorReadKey, h],
    fun t => by simp [editorReadKey, rdByte, HOME_KEY],
    fun t => by simp [editorReadKey, rdByte, DEL_KEY],
    fun t => by simp [editorReadKey, rdByte, END_KEY],
    fun t => by simp [editorReadKey, rdByte, PAGE_UP],
    fun t => by simp [editorReadKey, rdByte, PAGE_DOWN],
    fun t => by simp [editorReadKey, rdByte, HOME_KEY],
    fun t => by simp [editorReadKey, rdByte, END_KEY],
    fun t => by simp [editorReadKey, rdByte, ARROW_UP],
    fun t => by simp [editorReadKey, rdByte, ARROW_DOWN],
    fun t => by simp [editorReadKey, rdByte, ARROW_RIGHT],
    fun t => by simp [editorReadKey, rdByte, ARROW_LEFT],
    fun t => by simp [editorReadKey, rdByte, HOME_KEY],
    fun t => by simp [editorReadKey, rdByte, END_KEY],
    fun t => by simp [editorReadKey, rdByte, HOME_KEY],
    fun t => by simp [editorReadKey, rdByte, END_KEY],
    by simp [editorReadKey, rdByte],
    fun t => by simp [editorReadKey, rdByte],
    fun b => by simp [editorReadKey, rdByte],
    fun b t => by simp [editorReadKey, rdByte],
    ?_, ?_, ?_, ?_, ?_, ?_, ?_⟩
  · intro d h1 h2
    simp [editorReadKey, rdByte, h1, h2]
  · intro d t h1 h2
    simp [editorReadKey, rdByte, h1, h2]
  · intro s0 s1 t h1 h2
    simp [editorReadKey, rdByte, h1, h2]
  · intro s1 t h1 h2
    simp [editorReadKey, rdByte, h1, h2]
  · intro s1 t h0 h1 h2 h3 h4 h5 h6
    simp [editorReadKey, rdByte, h0, h1, h2, h3, h4, h5, h6]
  · intro s1 s2 t h1 h2 h3
    simp [editorReadKey, rdByte, h1, h2, h3]
  · intro s1 t h
    rcases h with h | h | h <;> subst h <;>
      simp [editorReadKey, rdByte]

/-- Claim C4 witness: concrete decodes, among them ESC [ 3 tilde to
Delete and ESC [ followed by a timeout to a literal escape. -/
theorem editorReadKey_spec_witness :
    editorReadKey 113 [] = 113 ∧
    editorReadKey 27 [some 91, some 51, some 126] = DEL_KEY ∧
    editorReadKey 27 [some 91] = 27 ∧
    editorReadKey 27 [some 91, some 53, some 88] = 27 := by
  obtain ⟨h1, _, h3, _, _, _, _, _, _, _, _, _, _, _, _, _, _, _, h19, _, _, _, _, _, _, h26,
    _⟩ := editorReadKey_spec
  exact ⟨h1 113 [] (by decide), h3 [], h19 91, h26 53 88 [] (by decide) (by decide) (by decide)⟩

lemma scrollClamp_idem (cur extent off : Nat) :
    scrollClamp cur extent (scrollClamp cur extent off) = scrollClamp cur extent off := by
  unfold scrollClamp scrollClampUp
  split_ifs <;> omega

lemma scrollClamp_noop (cur extent off : Nat) (h1 : off ≤ cur) (h2 : cur < off + extent) :
    scrollClamp cur extent off = off := by
  unfold scrollClamp scrollClampUp
  split_ifs <;> omega

lemma scrollClamp_visible (cur extent off : Nat) (h : 0 < extent) :
    scrollClamp cur extent off ≤ cur ∧ cur < scrollClamp cur extent off + extent := by
  unfold scrollClamp scrollClampUp
  split_ifs <;> omega

lemma scrollClamp_one_below (cur extent off : Nat) (h : cur = off + extent) :
    scrollClamp cur extent off = off + 1 := by
  unfold scrollClamp scrollClampUp
  split_ifs <;> omega

/-- Claim C7: editorScroll leaves both offsets unchanged when the
cursor's row and visual column are already inside the viewport; after it
runs the cursor's visual position lies inside the viewport on both axes
(given a non-degenerate viewport); a cursor exactly one row below the
last visible row moves rowoff up by exactly one; and the recompute is
idempotent. -/
theorem editorScroll_spec (E : EditorState) :
    (E.rowoff ≤ E.cy ∧ E.cy < E.rowoff + E.screenrows ∧
      E.coloff ≤ rxOf E ∧ rxOf E < E.coloff + E.screencols →
      (editorScroll E).rowoff = E.rowoff ∧ (editorScroll E).coloff = E.coloff) ∧
    (0 < E.screenrows → 0 < E.screencols →
      (editorScroll E).rowoff ≤ E.cy ∧ E.cy < (editorScroll E).rowoff + E.screenrows ∧
      (editorScroll E).coloff ≤ (editorScroll E).rx ∧
      (editorScroll E).rx < (editorScroll E).coloff + E.screencols) ∧
    (E.cy = E.rowoff + E.screenrows → (editorScroll E).rowoff = E.rowoff + 1) ∧
    editorScroll (editorScroll E) = editorScroll E := by
  refine ⟨?_, ?_, ?_, ?_⟩
  · rintro ⟨h1, h2, h3, h4⟩
    exact ⟨scrollClamp_noop _ _ _ h1 h2, scrollClamp_noop _ _ _ h3 h4⟩
  · intro h1 h2
    obtain ⟨hr1, hr2⟩ := scrollClamp_visible E.cy E.screenrows E.rowoff h1
    obtain ⟨hc1, hc2⟩ := scrollClamp_visible (rxOf E) E.screencols E.coloff h2
    exact ⟨hr1, hr2, hc1, hc2⟩
  · intro h
    exact scrollClamp_one_below _ _ _ h
  · show EditorState.mk _ _ _ _ _ _ _ _ _ = _
    simp only [editorScroll]
    congr 1 <;> exact scrollClamp_idem _ _ _

/-- Claim C7 witness on the two-line sample document with a 2 by 2
viewport, the cursor inside the viewport. -/
theorem editorScroll_spec_witness :
    (editorScroll { sampleDoc with screenrows := 2, screencols := 2, cx := 1, cy := 1 }).rowoff =
      ({ sampleDoc with screenrows := 2, screencols := 2, cx := 1, cy := 1 } :
        EditorState).rowoff ∧
    ({ sampleDoc with screenrows := 2, screencols := 2, cx := 1, cy := 1 } :
      EditorState).cy = 1 :=
  ⟨((editorScroll_spec { sampleDoc with screenrows := 2, screencols := 2, cx := 1, cy := 1 }).1
      (by decide)).1,
   by decide⟩

/-- Claim C3 counterexample: inserting a byte at column 5 of a one-byte
line is not a no-op - the byte lands at the end of the line. -/
theorem rowInsertChar_out_of_range_not_noop :
    (editorRowInsertChar oneCharDoc 0 5 98).rows ≠ oneCharDoc.rows := by decide

/-- Claim C3 amended: out-of-range line insertion, line deletion and
character deletion are no-ops leaving the whole state unchanged, but
out-of-range character insertion clamps the position to the line length
and inserts the byte at the end of the line (the same result as an
insertion addressed at the line length). -/
theorem out_of_range_edits_spec (E : EditorState) (pos : Int) (s : List Nat) (c : Nat) :
    (pos < 0 ∨ (E.rows.length : Int) < pos → editorInsertRow E pos s = E) ∧
    (pos < 0 ∨ (E.rows.length : Int) ≤ pos → editorDelRow E pos = E) ∧
    (∀ i, pos < 0 ∨ ((E.rows.getD i emptyErow).chars.length : Int) ≤ pos →
      editorRowDelChar E i pos = E) ∧
    (∀ i, pos < 0 ∨ ((E.rows.getD i emptyErow).chars.length : Int) < pos →
      editorRowInsertChar E i pos c =
        editorRowInsertChar E i ((E.rows.getD i emptyErow).chars.length : Int) c ∧
      rowInsertChar (E.rows.getD i emptyErow) pos c =
        editorUpdateRow { E.rows.getD i emptyErow with
          chars := (E.rows.getD i emptyErow).chars ++ [c] }) := by
  refine ⟨?_, ?_, ?_, ?_⟩
  · intro h
    unfold editorInsertRow
    rw [if_pos h]
  · intro h
    unfold editorDelRow
    rw [if_pos h]
  · intro i h
    unfold editorRowDelChar
    rw [if_pos h]
  · intro i h
    have hpos : rowInsertPos (E.rows.getD i emptyErow) pos =
        (E.rows.getD i emptyErow).chars.length := by
      unfold rowInsertPos
      rw [if_pos h]
    have hpos2 : rowInsertPos (E.rows.getD i emptyErow)
        ((E.rows.getD i emptyErow).chars.length : Int) =
        (E.rows.getD i emptyErow).chars.length := by
      unfold rowInsertPos
      rw [if_neg (by omega)]
      exact Int.toNat_natCast _
    constructor
    · unfold editorRowInsertChar rowInsertChar
      rw [hpos, hpos2]
    · unfold rowInsertChar
      rw [hpos, List.take_length, List.drop_length]

/-- Claim C3 witness: a no-op line deletion addressed past the end and a
clamped character insertion on the one-byte document. -/
theorem out_of_range_edits_spec_witness :
    editorDelRow oneCharDoc 7 = oneCharDoc ∧
    editorRowInsertChar oneCharDoc 0 5 98 = editorRowInsertChar oneCharDoc 0 1 98 :=
  ⟨(out_of_range_edits_spec oneCharDoc 7 [] 98).2.1 (by decide),
   ((out_of_range_edits_spec oneCharDoc 5 [] 98).2.2.2 0 (by decide)).1⟩

/-- Claim C2 counterexample: on a dirty document the third consecutive
Ctrl-Q does not terminate the process (it leaves the counter at 0 and
the editor running); only the fourth press exits. -/
theorem third_quit_does_not_exit :
    (quitPresses dirtyDoc KILO_QUIT_TIMES 3).1 ≠ KeyOutcome.exited ∧
    (quitPresses dirtyDoc KILO_QUIT_TIMES 4).1 = KeyOutcome.exited := by decide

set_option maxHeartbeats 1000000 in
/-- Claim C2 amended: on a dirty document, each of the first
KILO_QUIT_TIMES consecutive Ctrl-Q presses leaves the editor running and
decrements the counter by one (press k leaves it at KILO_QUIT_TIMES - k);
press KILO_QUIT_TIMES + 1, uninterrupted by any other key, terminates the
process; and every non-quit keypress resets the counter to
KILO_QUIT_TIMES. -/
theorem quit_debounce_spec (E : EditorState) (h : E.dirty ≠ 0) :
    (∀ n, n ≤ KILO_QUIT_TIMES →
      quitPresses E KILO_QUIT_TIMES n = (.next E, KILO_QUIT_TIMES - n)) ∧
    (quitPresses E KILO_QUIT_TIMES (KILO_QUIT_TIMES + 1)).1 = KeyOutcome.exited ∧
    (∀ qt c, c ≠ CTRL_KEY 113 → (editorProcessKeypress E qt c).2 = KILO_QUIT_TIMES) := by
  have hstep : ∀ qt, 0 < qt →
      editorProcessKeypress E qt (CTRL_KEY 113) = (.next E, qt - 1) := by
    intro qt hqt
    unfold editorProcessKeypress
    rw [if_neg (by decide), if_pos rfl, if_pos ⟨h, hqt⟩]
  have hn : ∀ n, n ≤ KILO_QUIT_TIMES →
      quitPresses E KILO_QUIT_TIMES n = (.next E, KILO_QUIT_TIMES - n) := by
    intro n hle
    induction n with
    | zero => rfl
    | succ m ih =>
      have hm : m ≤ KILO_QUIT_TIMES := Nat.le_of_succ_le hle
      simp only [quitPresses, ih hm]
      rw [hstep (KILO_QUIT_TIMES - m) (by revert hle; unfold KILO_QUIT_TIMES; omega)]
      have h3 : KILO_QUIT_TIMES - m - 1 = KILO_QUIT_TIMES - (m + 1) := by omega
      rw [h3]
  refine ⟨hn, ?_, ?_⟩
  · have hexit : editorProcessKeypress E 0 (CTRL_KEY 113) = (.exited, 0) := by
      unfold editorProcessKeypress
      rw [if_neg (by decide), if_pos rfl, if_neg (by simp)]
    have e1 : editorProcessKeypress E KILO_QUIT_TIMES (CTRL_KEY 113) = (.next E, 2) := by
      rw [hstep KILO_QUIT_TIMES (by decide)]
      rfl
    have e2 : editorProcessKeypress E 2 (CTRL_KEY 113) = (.next E, 1) := hstep 2 (by decide)
    have e3 : editorProcessKeypress E 1 (CTRL_KEY 113) = (.next E, 0) := hstep 1 (by decide)
    simp only [quitPresses, e1, e2, e3, hexit]
  · intro qt c hc
    unfold editorProcessKeypress
    split_ifs <;> rfl

lemma splitChunks_line (l rest : List Nat) :
    ∀ acc, 10 ∉ l → splitChunks acc (l ++ 10 :: rest) =
      ((acc.reverse ++ l) ++ [10]) :: splitChunks [] rest := by
  induction l with
  | nil =>
    intro acc _
    simp [splitChunks]
  | cons b bs ih =>
    intro acc hl
    have hb : ¬b = 10 := fun hc => hl (hc ▸ List.mem_cons_self b bs)
    have hbs : 10 ∉ bs := fun hc => hl (List.mem_cons_of_mem b hc)
    simp only [List.cons_append, splitChunks, if_neg hb, List.append_eq]
    rw [ih (b :: acc) hbs]
    simp

lemma splitChunks_lineBytes (ls : List (List Nat)) (h : ∀ l ∈ ls, 10 ∉ l) :
    splitChunks [] (lineBytes ls) = ls.map (fun l => l ++ [10]) := by
  induction ls with
  | nil => rfl
  | cons l ls ih =>
    have hl : 10 ∉ l := h l (List.mem_cons_self l ls)
    have hls : ∀ x ∈ ls, 10 ∉ x := fun x hx => h x (List.mem_cons_of_mem l hx)
    have hb : lineBytes (l :: ls) = l ++ 10 :: lineBytes ls := by
      simp [lineBytes]
    rw [hb, splitChunks_line l (lineBytes ls) [] hl, ih hls]
    simp

lemma stripNL_line (l : List Nat) (h10 : 10 ∉ l) (h13 : l.getLast? ≠ some 13) :
    stripNL (l ++ [10]) = l := by
  unfold stripNL
  have h1 : (l ++ [10]).reverse = 10 :: l.reverse := by simp
  rw [h1, List.dropWhile_cons, if_pos (by simp)]
  cases hrev : l.reverse with
  | nil => simpa using congrArg List.reverse hrev
  | cons b t =>
    have hbl : b ∈ l := by
      have : b ∈ l.reverse := hrev ▸ List.mem_cons_self b t
      simpa using this
    have hb10 : ¬b = 10 := fun hc => h10 (hc ▸ hbl)
    have hb13 : ¬b = 13 := by
      intro hc
      apply h13
      rw [← List.head?_reverse, hrev, hc]
      rfl
    rw [List.dropWhile_cons, if_neg (by simp [hb10, hb13])]
    rw [← hrev, List.reverse_reverse]

lemma editorOpen_foldl_rows (lines : List (List Nat)) (E : EditorState) :
    (lines.foldl (fun st l => editorInsertRow st (st.rows.length : Int) l) E).rows =
      E.rows ++ lines.map (fun l => editorUpdateRow { chars := l, render := [] }) := by
  induction lines generalizing E with
  | nil => simp
  | cons l ls ih =>
    simp only [List.foldl_cons, List.map_cons]
    rw [ih]
    have hr : (editorInsertRow E (E.rows.length : Int) l).rows =
        E.rows ++ [editorUpdateRow { chars := l, render := [] }] := by
      unfold editorInsertRow
      rw [if_neg (by omega)]
      simp
    rw [hr]
    simp

lemma rowsToString_eq_lineBytes (rows : List Erow) :
    rows.foldr (fun r acc => r.chars ++ 10 :: acc) [] =
      lineBytes (rows.map Erow.chars) := by
  induction rows with
  | nil => rfl
  | cons r rest ih =>
    simp only [List.foldr_cons, ih]
    simp [lineBytes]

/-- Claim C8: editorRowsToString joins the rows' raw bytes with a newline
after every row, the last included; loading a file whose every line ends
in a single trailing newline and saving reproduces the bytes exactly. -/
theorem save_load_round_trip (ls : List (List Nat)) (srows scols : Nat)
    (h : ∀ l ∈ ls, 10 ∉ l ∧ l.getLast? ≠ some 13) :
    editorRowsToString (editorOpen (initEditor srows scols) (lineBytes ls)) = lineBytes ls ∧
    (∀ E : EditorState, editorRowsToString E = lineBytes (E.rows.map Erow.chars)) := by
  have hgen : ∀ E : EditorState, editorRowsToString E = lineBytes (E.rows.map Erow.chars) :=
    fun E => rowsToString_eq_lineBytes E.rows
  refine ⟨?_, hgen⟩
  rw [hgen]
  have hrows : (editorOpen (initEditor srows scols) (lineBytes ls)).rows =
      ls.map (fun l => editorUpdateRow { chars := l, render := [] }) := by
    unfold editorOpen
    rw [splitChunks_lineBytes ls (fun l hl => (h l hl).1)]
    have hmap : (ls.map (fun l => l ++ [10])).map stripNL = ls := by
      rw [List.map_map]
      have : ∀ l ∈ ls, stripNL (l ++ [10]) = l :=
        fun l hl => stripNL_line l (h l hl).1 (h l hl).2
      calc ls.map (stripNL ∘ fun l => l ++ [10]) = ls.map id := by
            apply List.map_congr_left
            intro a ha
            exact this a ha
        _ = ls := List.map_id ls
    rw [hmap]
    rw [editorOpen_foldl_rows]
    simp [initEditor]
  rw [hrows]
  rw [List.map_map]
  have hchars : ls.map (Erow.chars ∘ fun l => editorUpdateRow { chars := l, render := [] }) =
      ls.map id := by
    apply List.map_congr_left
    intro a ha
    rfl
  rw [hchars, List.map_id]

/-- Claim C8 witness: the concrete file ab newline cd newline. -/
theorem save_load_round_trip_witness :
    editorRowsToString (editorOpen (initEditor 10 10) (lineBytes [[97, 98], [99, 100]])) =
      lineBytes [[97, 98], [99, 100]] :=
  (save_load_round_trip [[97, 98], [99, 100]] 10 10 (by decide)).1

lemma getD_set_self (l : List Erow) (i : Nat) (r : Erow) (h : i < l.length) :
    (l.set i r).getD i emptyErow = r := by
  rw [List.getD_eq_getElem?_getD, List.getElem?_set_self h]
  rfl

lemma getD_set_ne (l : List Erow) (i j : Nat) (r : Erow) (h : i ≠ j) :
    (l.set i r).getD j emptyErow = l.getD j emptyErow := by
  rw [List.getD_eq_getElem?_getD, List.getElem?_set_ne h, ← List.getD_eq_getElem?_getD]

/-- Claim C6: editorDeleteChar is a no-op at the document start and on
the virtual end-of-file row; with a positive cursor column it removes the
byte before the cursor and decrements the column; at column 0 on a later
row it appends the current row's bytes onto the previous row, removes the
current row, and parks the cursor at the previous row's pre-append end. -/
theorem editorDeleteChar_spec (E : EditorState) :
    (E.cy = 0 ∧ E.cx = 0 → editorDeleteChar E = E) ∧
    (E.cy = E.rows.length → editorDeleteChar E = E) ∧
    (E.cy < E.rows.length → 0 < E.cx →
      (editorDeleteChar E).cx = E.cx - 1 ∧
      (editorDeleteChar E).cy = E.cy ∧
      (editorDeleteChar E).rows.length = E.rows.length ∧
      ((editorDeleteChar E).rows.getD E.cy emptyErow).chars =
        (E.rows.getD E.cy emptyErow).chars.take (E.cx - 1) ++
          (E.rows.getD E.cy emptyErow).chars.drop E.cx ∧
      (∀ i, i ≠ E.cy →
        (editorDeleteChar E).rows.getD i emptyErow = E.rows.getD i emptyErow)) ∧
    (E.cx = 0 → 0 < E.cy → E.cy < E.rows.length →
      (editorDeleteChar E).cx = (E.rows.getD (E.cy - 1) emptyErow).chars.length ∧
      (editorDeleteChar E).cy = E.cy - 1 ∧
      (editorDeleteChar E).rows.length + 1 = E.rows.length ∧
      ((editorDeleteChar E).rows.getD (E.cy - 1) emptyErow).chars =
        (E.rows.getD (E.cy - 1) emptyErow).chars ++ (E.rows.getD E.cy emptyErow).chars) := by
  refine ⟨?_, ?_, ?_, ?_⟩
  · rintro ⟨hcy, hcx⟩
    unfold editorDeleteChar
    by_cases hlen : E.cy = E.rows.length
    · rw [if_pos hlen]
    · rw [if_neg hlen, if_pos ⟨hcx, hcy⟩]
  · intro hlen
    unfold editorDeleteChar
    rw [if_pos hlen]
  · intro h1 h2
    have hred : editorDeleteChar E =
        { editorRowDelChar E E.cy ((E.cx : Int) - 1) with cx := E.cx - 1 } := by
      unfold editorDeleteChar
      rw [if_neg (by omega), if_neg (by rintro ⟨hc1, hc2⟩; omega), if_pos h2]
    rw [hred]
    by_cases hg : ((E.cx : Int) - 1 < 0 ∨
        ((E.rows.getD E.cy emptyErow).chars.length : Int) ≤ (E.cx : Int) - 1)
    · have hlen : (E.rows.getD E.cy emptyErow).chars.length ≤ E.cx - 1 := by omega
      have hdel : editorRowDelChar E E.cy ((E.cx : Int) - 1) = E := by
        unfold editorRowDelChar
        rw [if_pos hg]
      rw [hdel]
      refine ⟨rfl, rfl, rfl, ?_, fun i _ => rfl⟩
      rw [List.take_of_length_le hlen, List.drop_eq_nil_of_le (by omega), List.append_nil]
    · have ht1 : ((E.cx : Int) - 1).toNat = E.cx - 1 := by omega
      have ht2 : ((E.cx : Int) - 1).toNat + 1 = E.cx := by omega
      have hdel : editorRowDelChar E E.cy ((E.cx : Int) - 1) =
          { E with
            rows := E.rows.set E.cy
              (editorUpdateRow { E.rows.getD E.cy emptyErow with
                chars := (E.rows.getD E.cy emptyErow).chars.take (E.cx - 1) ++
                  (E.rows.getD E.cy emptyErow).chars.drop E.cx })
            dirty := E.dirty + 1 } := by
        unfold editorRowDelChar
        rw [if_neg hg, ht1]
        rw [show E.cx - 1 + 1 = E.cx from by omega]
      rw [hdel]
      refine ⟨rfl, rfl, by simp, ?_, ?_⟩
      · have := getD_set_self E.rows E.cy
          (editorUpdateRow { E.rows.getD E.cy emptyErow with
            chars := (E.rows.getD E.cy emptyErow).chars.take (E.cx - 1) ++
              (E.rows.getD E.cy emptyErow).chars.drop E.cx }) h1
        simp only [this]
        rfl
      · intro i hi
        exact getD_set_ne E.rows E.cy i _ (fun hc => hi hc.symm)
  · intro hcx h1 h2
    have hred : editorDeleteChar E =
        { editorDelRow
            (editorRowAppendString E (E.cy - 1) (E.rows.getD E.cy emptyErow).chars)
            (E.cy : Int) with
          cx := (E.rows.getD (E.cy - 1) emptyErow).chars.length
          cy := E.cy - 1 } := by
      unfold editorDeleteChar
      rw [if_neg (by omega), if_neg (by rintro ⟨hc1, hc2⟩; omega), if_neg (by omega)]
    have hlenA : (editorRowAppendString E (E.cy - 1)
        (E.rows.getD E.cy emptyErow).chars).rows.length = E.rows.length := by
      unfold editorRowAppendString
      simp
    have hdelrow : editorDelRow
        (editorRowAppendString E (E.cy - 1) (E.rows.getD E.cy emptyErow).chars)
        (E.cy : Int) =
        { editorRowAppendString E (E.cy - 1) (E.rows.getD E.cy emptyErow).chars with
          rows := (editorRowAppendString E (E.cy - 1)
              (E.rows.getD E.cy emptyErow).chars).rows.take E.cy ++
            (editorRowAppendString E (E.cy - 1)
              (E.rows.getD E.cy emptyErow).chars).rows.drop (E.cy + 1)
          dirty := (editorRowAppendString E (E.cy - 1)
              (E.rows.getD E.cy emptyErow).chars).dirty + 1 } := by
      unfold editorDelRow
      rw [if_neg (by rw [hlenA]; omega)]
      rw [Int.toNat_natCast]
    rw [hred, hdelrow]
    dsimp only
    refine ⟨rfl, rfl, ?_, ?_⟩
    · have hta : ((editorRowAppendString E (E.cy - 1)
          (E.rows.getD E.cy emptyErow).chars).rows.take E.cy).length = E.cy := by
        rw [List.length_take, hlenA]
        omega
      rw [List.length_append, hta, List.length_drop, hlenA]
      omega
    · have hta : ((editorRowAppendString E (E.cy - 1)
          (E.rows.getD E.cy emptyErow).chars).rows.take E.cy).length = E.cy := by
        rw [List.length_take, hlenA]
        omega
      rw [List.getD_eq_getElem?_getD, List.getElem?_append]
      rw [hta, if_pos (by omega)]
      rw [List.getElem?_take, if_pos (by omega)]
      unfold editorRowAppendString
      dsimp only
      rw [List.getElem?_set_self (by omega)]
      rfl

/-- Claim C6 witness: backward delete on the sample document with the
cursor at row 1, column 1 (deletes byte 99) and the no-op at the origin. -/
theorem editorDeleteChar_spec_witness :
    (editorDeleteChar { sampleDoc with cy := 1, cx := 1 }).cx = 0 ∧
    editorDeleteChar { sampleDoc with cy := 0, cx := 0 } =
      { sampleDoc with cy := 0, cx := 0 } := by
  refine ⟨((editorDeleteChar_spec { sampleDoc with cy := 1, cx := 1 }).2.2.1
    (by decide) (by decide)).1, ?_⟩
  exact (editorDeleteChar_spec { sampleDoc with cy := 0, cx := 0 }).1 ⟨rfl, rfl⟩

lemma moveRight_mid (E : EditorState) (hcy : E.cy < E.rows.length)
    (hcx : E.cx < (E.rows.getD E.cy emptyErow).chars.length) :
    editorMoveCursor E ARROW_RIGHT = { E with cx := E.cx + 1 } := by
  have hstep : moveCursorStep E ARROW_RIGHT = { E with cx := E.cx + 1 } := by
    unfold moveCursorStep
    rw [if_neg (by decide), if_pos rfl, if_neg (by omega), if_pos hcx]
  have hsnap : snapCx { E with cx := E.cx + 1 } =
      (E.rows.getD E.cy emptyErow).chars.length := by
    unfold snapCx
    dsimp only
    rw [if_neg (by omega)]
  unfold editorMoveCursor
  rw [hstep, hsnap, if_neg (by dsimp only; omega)]

lemma moveRight_eol (E : EditorState) (hcy : E.cy < E.rows.length)
    (hcx : E.cx = (E.rows.getD E.cy emptyErow).chars.length) :
    editorMoveCursor E ARROW_RIGHT = { E with cy := E.cy + 1, cx := 0 } := by
  have hstep : moveCursorStep E ARROW_RIGHT = { E with cy := E.cy + 1, cx := 0 } := by
    unfold moveCursorStep
    rw [if_neg (by decide), if_pos rfl, if_neg (by omega), if_neg (by omega), if_pos hcx]
  unfold editorMoveCursor
  rw [hstep, if_neg (by dsimp only; omega)]

/-- Claim C10: the DEL_KEY branch of editorProcessKeypress is exactly a
right cursor move followed by a backward delete; hence with the cursor on
a real row before the line end, Delete removes the byte under the cursor
leaving the cursor in place, and at the line end with a following row it
joins the following line onto the current one. -/
theorem del_key_spec (E : EditorState) (qt : Nat) :
    editorProcessKeypress E qt DEL_KEY =
      (.next (editorDeleteChar (editorMoveCursor E ARROW_RIGHT)), KILO_QUIT_TIMES) ∧
    (E.cy < E.rows.length → E.cx < (E.rows.getD E.cy emptyErow).chars.length →
      (editorDeleteChar (editorMoveCursor E ARROW_RIGHT)).cx = E.cx ∧
      (editorDeleteChar (editorMoveCursor E ARROW_RIGHT)).cy = E.cy ∧
      (editorDeleteChar (editorMoveCursor E ARROW_RIGHT)).rows.length = E.rows.length ∧
      ((editorDeleteChar (editorMoveCursor E ARROW_RIGHT)).rows.getD E.cy emptyErow).chars =
        (E.rows.getD E.cy emptyErow).chars.take E.cx ++
          (E.rows.getD E.cy emptyErow).chars.drop (E.cx + 1)) ∧
    (E.cy + 1 < E.rows.length → E.cx = (E.rows.getD E.cy emptyErow).chars.length →
      (editorDeleteChar (editorMoveCursor E ARROW_RIGHT)).cx = E.cx ∧
      (editorDeleteChar (editorMoveCursor E ARROW_RIGHT)).cy = E.cy ∧
      (editorDeleteChar (editorMoveCursor E ARROW_RIGHT)).rows.length + 1 = E.rows.length ∧
      ((editorDeleteChar (editorMoveCursor E ARROW_RIGHT)).rows.getD E.cy emptyErow).chars =
        (E.rows.getD E.cy emptyErow).chars ++
          (E.rows.getD (E.cy + 1) emptyErow).chars) := by
  refine ⟨?_, ?_, ?_⟩
  · unfold editorProcessKeypress
    rw [if_neg (by decide), if_neg (by decide), if_neg (by decide), if_neg (by decide),
      if_neg (by decide), if_pos (by decide), if_pos rfl]
  · intro hcy hcx
    rw [moveRight_mid E hcy hcx]
    have hred : editorDeleteChar { E with cx := E.cx + 1 } =
        { editorRowDelChar { E with cx := E.cx + 1 } E.cy ((E.cx + 1 : Nat) - 1 : Int) with
          cx := E.cx + 1 - 1 } := by
      unfold editorDeleteChar
      rw [if_neg (by dsimp only; omega), if_neg (by dsimp only; rintro ⟨hc1, hc2⟩; omega),
        if_pos (by dsimp only; omega)]
    rw [hred]
    have hg : ¬(((E.cx + 1 : Nat) : Int) - 1 < 0 ∨
        ((({ E with cx := E.cx + 1 } : EditorState).rows.getD
          ({ E with cx := E.cx + 1 } : EditorState).cy emptyErow).chars.length : Int) ≤
          ((E.cx + 1 : Nat) : Int) - 1) := by
      dsimp only
      omega
    have hdel : editorRowDelChar { E with cx := E.cx + 1 } E.cy
        ((E.cx + 1 : Nat) - 1 : Int) =
        { E with
          cx := E.cx + 1
          rows := E.rows.set E.cy
            (editorUpdateRow { E.rows.getD E.cy emptyErow with
              chars := (E.rows.getD E.cy emptyErow).chars.take E.cx ++
                (E.rows.getD E.cy emptyErow).chars.drop (E.cx + 1) })
          dirty := E.dirty + 1 } := by
      unfold editorRowDelChar
      rw [if_neg hg]
      dsimp only
      rw [show (((E.cx + 1 : Nat) : Int) - 1).toNat = E.cx from by omega]
    rw [hdel]
    dsimp only
    refine ⟨by omega, rfl, by simp, ?_⟩
    rw [getD_set_self _ _ _ hcy]
    rfl
  · intro hcy1 hcx
    rw [moveRight_eol E (by omega) hcx]
    have hred : editorDeleteChar { E with cy := E.cy + 1, cx := 0 } =
        { editorDelRow
            (editorRowAppendString { E with cy := E.cy + 1, cx := 0 } (E.cy + 1 - 1)
              (E.rows.getD (E.cy + 1) emptyErow).chars)
            ((E.cy + 1 : Nat) : Int) with
          cx := (E.rows.getD (E.cy + 1 - 1) emptyErow).chars.length
          cy := E.cy + 1 - 1 } := by
      unfold editorDeleteChar
      rw [if_neg (by dsimp only; omega), if_neg (by dsimp only; rintro ⟨hc1, hc2⟩; omega),
        if_neg (by dsimp only; omega)]
    rw [hred]
    rw [show E.cy + 1 - 1 = E.cy from by omega]
    have hlenA : (editorRowAppendString { E with cy := E.cy + 1, cx := 0 } E.cy
        (E.rows.getD (E.cy + 1) emptyErow).chars).rows.length = E.rows.length := by
      unfold editorRowAppendString
      simp
    have hdelrow : editorDelRow
        (editorRowAppendString { E with cy := E.cy + 1, cx := 0 } E.cy
          (E.rows.getD (E.cy + 1) emptyErow).chars)
        ((E.cy + 1 : Nat) : Int) =
        { editorRowAppendString { E with cy := E.cy + 1, cx := 0 } E.cy
            (E.rows.getD (E.cy + 1) emptyErow).chars with
          rows := (editorRowAppendString { E with cy := E.cy + 1, cx := 0 } E.cy
              (E.rows.getD (E.cy + 1) emptyErow).chars).rows.take (E.cy + 1) ++
            (editorRowAppendString { E with cy := E.cy + 1, cx := 0 } E.cy
              (E.rows.getD (E.cy + 1) emptyErow).chars).rows.drop (E.cy + 1 + 1)
          dirty := (editorRowAppendString { E with cy := E.cy + 1, cx := 0 } E.cy
              (E.rows.getD (E.cy + 1) emptyErow).chars).dirty + 1 } := by
      unfold editorDelRow
      rw [if_neg (by rw [hlenA]; omega)]
      rw [Int.toNat_natCast]
    rw [hdelrow]
    dsimp only
    have hta : ((editorRowAppendString { E with cy := E.cy + 1, cx := 0 } E.cy
        (E.rows.getD (E.cy + 1) emptyErow).chars).rows.take (E.cy + 1)).length =
        E.cy + 1 := by
      rw [List.length_take, hlenA]
      omega
    refine ⟨by omega, rfl, ?_, ?_⟩
    · rw [List.length_append, hta, List.length_drop, hlenA]
      omega
    · rw [List.getD_eq_getElem?_getD, List.getElem?_append]
      rw [hta, if_pos (by omega)]
      rw [List.getElem?_take, if_pos (by omega)]
      unfold editorRowAppendString
      dsimp only
      rw [List.getElem?_set_self (by omega)]
      rfl

/-- Claim C10 witness: Delete on the sample document with the cursor at
row 0 column 0 removes the byte under the cursor, and at the end of row 0
joins row 1 onto row 0. -/
theorem del_key_spec_witness :
    editorProcessKeypress sampleDoc 2 DEL_KEY =
      (.next (editorDeleteChar (editorMoveCursor sampleDoc ARROW_RIGHT)),
        KILO_QUIT_TIMES) ∧
    ((editorDeleteChar (editorMoveCursor sampleDoc ARROW_RIGHT)).rows.getD sampleDoc.cy
      emptyErow).chars =
      (sampleDoc.rows.getD sampleDoc.cy emptyErow).chars.take sampleDoc.cx ++
        (sampleDoc.rows.getD sampleDoc.cy emptyErow).chars.drop (sampleDoc.cx + 1) :=
  ⟨(del_key_spec sampleDoc 2).1,
   ((del_key_spec sampleDoc 2).2.1 (by decide) (by decide)).2.2.2⟩

lemma renderConsistent_rows_eq (E1 E2 : EditorState) (hrows : E1.rows = E2.rows)
    (h : RenderConsistent E2) : RenderConsistent E1 := by
  intro r hr
  exact h r (hrows ▸ hr)

lemma rc_insertRow (E : EditorState) (pos : Int) (s : List Nat) (h : RenderConsistent E) :
    RenderConsistent (editorInsertRow E pos s) := by
  unfold editorInsertRow
  split_ifs with hg
  · exact h
  · intro r hr
    dsimp only at hr
    rcases List.mem_append.1 hr with h1 | h2
    · exact h r (List.mem_of_mem_take h1)
    · rcases List.mem_cons.1 h2 with h3 | h4
      · rw [h3]
        rfl
      · exact h r (List.mem_of_mem_drop h4)

lemma rc_delRow (E : EditorState) (pos : Int) (h : RenderConsistent E) :
    RenderConsistent (editorDelRow E pos) := by
  unfold editorDelRow
  split_ifs with hg
  · exact h
  · intro r hr
    dsimp only at hr
    rcases List.mem_append.1 hr with h1 | h2
    · exact h r (List.mem_of_mem_take h1)
    · exact h r (List.mem_of_mem_drop h2)

lemma rc_rowInsertChar (E : EditorState) (i : Nat) (pos : Int) (c : Nat)
    (h : RenderConsistent E) : RenderConsistent (editorRowInsertChar E i pos c) := by
  intro r hr
  dsimp only [editorRowInsertChar] at hr
  rcases List.mem_or_eq_of_mem_set hr with h1 | h2
  · exact h r h1
  · rw [h2]
    rfl

lemma rc_rowAppendString (E : EditorState) (i : Nat) (s : List Nat)
    (h : RenderConsistent E) : RenderConsistent (editorRowAppendString E i s) := by
  intro r hr
  dsimp only [editorRowAppendString] at hr
  rcases List.mem_or_eq_of_mem_set hr with h1 | h2
  · exact h r h1
  · rw [h2]
    rfl

lemma rc_rowDelChar (E : EditorState) (i : Nat) (pos : Int)
    (h : RenderConsistent E) : RenderConsistent (editorRowDelChar E i pos) := by
  unfold editorRowDelChar
  split_ifs with hg
  · exact h
  · intro r hr
    dsimp only at hr
    rcases List.mem_or_eq_of_mem_set hr with h1 | h2
    · exact h r h1
    · rw [h2]
      rfl

lemma rc_truncateRowAt (E : EditorState) (i len : Nat)
    (h : RenderConsistent E) : RenderConsistent (truncateRowAt E i len) := by
  intro r hr
  dsimp only [truncateRowAt] at hr
  rcases List.mem_or_eq_of_mem_set hr with h1 | h2
  · exact h r h1
  · rw [h2]
    rfl

lemma rc_insertChar (E : EditorState) (c : Nat) (h : RenderConsistent E) :
    RenderConsistent (editorInsertChar E c) := by
  apply renderConsistent_rows_eq _
    (editorRowInsertChar
      (if E.cy = E.rows.length then editorInsertRow E (E.rows.length : Int) [] else E)
      E.cy (E.cx : Int) c) rfl
  apply rc_rowInsertChar
  split_ifs with hg
  · exact rc_insertRow E _ [] h
  · exact h

lemma rc_insertNewline (E : EditorState) (h : RenderConsistent E) :
    RenderConsistent (editorInsertNewline E) := by
  apply renderConsistent_rows_eq _
    (if E.cx = 0 then editorInsertRow E (E.cy : Int) []
     else
       truncateRowAt
         (editorInsertRow E ((E.cy : Int) + 1) ((E.rows.getD E.cy emptyErow).chars.drop E.cx))
         E.cy E.cx) rfl
  split_ifs with hg
  · exact rc_insertRow E _ [] h
  · exact rc_truncateRowAt _ _ _ (rc_insertRow E _ _ h)

lemma rc_deleteChar (E : EditorState) (h : RenderConsistent E) :
    RenderConsistent (editorDeleteChar E) := by
  unfold editorDeleteChar
  split_ifs with h1 h2 h3
  · exact h
  · exact h
  · exact renderConsistent_rows_eq _ _ rfl (rc_rowDelChar E E.cy _ h)
  · exact renderConsistent_rows_eq _ _ rfl
      (rc_delRow _ _ (rc_rowAppendString E _ _ h))

lemma rc_applyOp (E : EditorState) (op : EditOp) (h : RenderConsistent E) :
    RenderConsistent (applyOp E op) := by
  cases op with
  | insertChar c => exact rc_insertChar E c h
  | deleteCharBackward => exact rc_deleteChar E h
  | insertNewline => exact rc_insertNewline E h

lemma rc_foldl_insertRow (lines : List (List Nat)) (E : EditorState)
    (h : RenderConsistent E) :
    RenderConsistent
      (lines.foldl (fun st l => editorInsertRow st (st.rows.length : Int) l) E) := by
  induction lines generalizing E with
  | nil => exact h
  | cons l ls ih => exact ih _ (rc_insertRow E _ l h)

/-- Claim C1: the render cache is never stale - from any render-consistent
state (the empty initial state and any freshly opened file included),
every sequence of insertChar, deleteCharBackward and insertNewline
operations leaves every row's cached render equal to the render
recomputed from its raw bytes. -/
theorem render_cache_invariant (E : EditorState) (h : RenderConsistent E)
    (ops : List EditOp) (srows scols : Nat) (bytes : List Nat) :
    RenderConsistent (applyOps E ops) ∧
    RenderConsistent (initEditor srows scols) ∧
    RenderConsistent (editorOpen (initEditor srows scols) bytes) := by
  refine ⟨?_, ?_, ?_⟩
  · induction ops generalizing E with
    | nil => exact h
    | cons op rest ih => exact ih _ (rc_applyOp E op h)
  · intro r hr
    simp [initEditor] at hr
  · apply renderConsistent_rows_eq _
      (((splitChunks [] bytes).map stripNL).foldl
        (fun st l => editorInsertRow st (st.rows.length : Int) l) (initEditor srows scols)) rfl
    apply rc_foldl_insertRow
    intro r hr
    simp [initEditor] at hr

/-- Claim C1 witness: a concrete edit sequence on a fresh editor ending
with a consistent cache. -/
theorem render_cache_invariant_witness :
    RenderConsistent (applyOps (initEditor 4 4)
      [.insertChar 97, .insertChar 9, .insertNewline, .insertChar 98,
       .deleteCharBackward, .deleteCharBackward]) :=
  (render_cache_invariant (initEditor 4 4) (by decide)
    [.insertChar 97, .insertChar 9, .insertNewline, .insertChar 98,
     .deleteCharBackward, .deleteCharBackward] 4 4 []).1

/-- Claim C2 witness: the concrete dirty one-byte document. -/
theorem quit_debounce_spec_witness :
    quitPresses dirtyDoc KILO_QUIT_TIMES 1 = (.next dirtyDoc, KILO_QUIT_TIMES - 1) ∧
    (quitPresses dirtyDoc KILO_QUIT_TIMES (KILO_QUIT_TIMES + 1)).1 = KeyOutcome.exited ∧
    (editorProcessKeypress dirtyDoc 1 HOME_KEY).2 = KILO_QUIT_TIMES := by
  obtain ⟨h1, h2, h3⟩ := quit_debounce_spec dirtyDoc (by decide)
  exact ⟨h1 1 (by decide), h2, h3 1 HOME_KEY (by decide)⟩

end Kilo
